import Mathlib

/-!
Verification of the filtering and aggregation pipeline of the employee
attrition dashboard (src/app.py).

The record table is modelled as a header (list of column names) plus a list
of rows, each row a list of string cells aligned with the header, which is
how the dataframe library presents the CSV-loaded data.  Every operation of
the pipeline (the sequential filter loop, the attrition-rate metric, the
row-normalized cross-tabulation, the correlation guard, the CSV export and
the pivot section) is embedded as a computable function on this model.
-/

namespace EAdash

/-- A record table: column names plus rows of string cells, row `i`
aligned positionally with the header (`df` in src/app.py). -/
structure Table where
  cols : List String
  rows : List (List String)
deriving DecidableEq, Repr

/-- Well-formedness: every row has exactly one cell per column
(a dataframe is rectangular by construction). -/
def Rect (t : Table) : Prop := ∀ r ∈ t.rows, r.length = t.cols.length

instance (t : Table) : Decidable (Rect t) := by
  unfold Rect; infer_instance

/-- Cell lookup `row[col]`: the cell aligned with the first column of that
name, none if the column is absent (or the row too short). -/
def cellAt : List String → List String → String → Option String
  | c0 :: cs, v :: vs, c => if c0 = c then some v else cellAt cs vs c
  | _, _, _ => none

/-- The fixed list of filterable columns of the filter loop
(src/app.py line 41). -/
def filterCols : List String :=
  ["Department", "JobRole", "Gender", "Education", "MaritalStatus", "OverTime"]

/-- A filter selection: for each column name, the list of selected values.
An empty list means the column is unconstrained (absent from the mapping
or nothing selected). -/
abbrev Selection := String → List String

/-- One iteration of the filter loop (src/app.py lines 44-45):
`if col in filtered_df.columns and selected: filtered_df =
filtered_df[filtered_df[col].isin(selected)]`. -/
def filterStep (t : Table) (c : String) (vals : List String) : Table :=
  if c ∈ t.cols ∧ vals ≠ [] then
    ⟨t.cols, t.rows.filter fun r => (cellAt t.cols r c).any fun v => vals.contains v⟩
  else t

/-- Apply the filter steps for a list of columns in order. -/
def applyFilters (sel : Selection) (cs : List String) (t : Table) : Table :=
  cs.foldl (fun acc c => filterStep acc c (sel c)) t

/-- The whole filter loop (src/app.py lines 39-45): start from a copy of
the record table and apply the step for each filterable column. -/
def filteredTable (sel : Selection) (t : Table) : Table :=
  applyFilters sel filterCols t

/-- The per-column membership test of the loop, as a predicate on rows:
vacuously true when the column is absent from the table or the selection
is empty. -/
def passes (cols : List String) (sel : Selection) (c : String) (r : List String) : Bool :=
  if c ∈ cols ∧ sel c ≠ [] then (cellAt cols r c).any fun v => (sel c).contains v
  else true

/-- The values occurring in a column of the table. -/
def colValues (t : Table) (c : String) : List String :=
  t.rows.filterMap fun r => cellAt t.cols r c

theorem filterStep_cols (t : Table) (c : String) (vals : List String) :
    (filterStep t c vals).cols = t.cols := by
  unfold filterStep; split <;> rfl

theorem applyFilters_cols (sel : Selection) (cs : List String) (t : Table) :
    (applyFilters sel cs t).cols = t.cols := by
  induction cs generalizing t with
  | nil => rfl
  | cons c cs ih =>
      show (applyFilters sel cs (filterStep t c (sel c))).cols = t.cols
      rw [ih, filterStep_cols]

theorem applyFilters_rows (sel : Selection) (cs : List String) (t : Table) :
    (applyFilters sel cs t).rows = t.rows.filter fun r => cs.all fun c => passes t.cols sel c r := by
  induction cs generalizing t with
  | nil => simp [applyFilters]
  | cons c cs ih =>
      show (applyFilters sel cs (filterStep t c (sel c))).rows = _
      rw [ih, filterStep_cols]
      unfold filterStep
      by_cases h : c ∈ t.cols ∧ sel c ≠ []
      · rw [if_pos h]
        simp only [List.filter_filter]
        congr 1
        funext r
        simp only [List.all_cons, passes, if_pos h, Bool.and_comm]
      · rw [if_neg h]
        congr 1
        funext r
        simp only [List.all_cons, passes, if_neg h, Bool.true_and]

theorem cellAt_isSome_of_mem {cols r : List String} {c : String}
    (hc : c ∈ cols) (hlen : r.length = cols.length) :
    ∃ v, cellAt cols r c = some v := by
  induction cols generalizing r with
  | nil => cases hc
  | cons c0 cs ih =>
      cases r with
      | nil => simp at hlen
      | cons v vs =>
          by_cases h0 : c0 = c
          · exact ⟨v, by simp [cellAt, h0]⟩
          · rcases List.mem_cons.mp hc with hc | hc
            · exact absurd hc.symm h0
            · simpa [cellAt, h0] using ih hc (by simpa using hlen)

theorem cellAt_mem_colValues {t : Table} {r : List String} {c : String} {v : String}
    (hr : r ∈ t.rows) (hv : cellAt t.cols r c = some v) : v ∈ colValues t c := by
  unfold colValues
  exact List.mem_filterMap.mpr ⟨r, hr, hv⟩

theorem filterStep_id_of_unconstrained {t : Table} {c : String} {vals : List String}
    (h : vals = [] ∨ (Rect t ∧ ∀ v, v ∈ vals ↔ v ∈ colValues t c)) :
    filterStep t c vals = t := by
  unfold filterStep
  rcases h with h | ⟨hrect, hfull⟩
  · simp [h]
  · split
    case isTrue hg =>
      have hfilter : (t.rows.filter fun r => (cellAt t.cols r c).any fun v => vals.contains v)
          = t.rows := by
        apply List.filter_eq_self.mpr
        intro r hr
        obtain ⟨v, hv⟩ := cellAt_isSome_of_mem hg.1 (hrect r hr)
        rw [hv]
        simpa [List.contains, List.elem_iff] using
          (hfull v).mpr (cellAt_mem_colValues hr hv)
      rw [hfilter]
    case isFalse => rfl

/-- The row-level effect of one filter step, for a fixed header. -/
def stepRows (cols : List String) (c : String) (vals : List String)
    (rows : List (List String)) : List (List String) :=
  if c ∈ cols ∧ vals ≠ [] then
    rows.filter fun r => (cellAt cols r c).any fun v => vals.contains v
  else rows

theorem filterStep_eq_stepRows (t : Table) (c : String) (vals : List String) :
    filterStep t c vals = ⟨t.cols, stepRows t.cols c vals t.rows⟩ := by
  unfold filterStep stepRows
  split <;> rfl

theorem stepRows_comm (cols : List String) (a b : String) (va vb : List String)
    (rows : List (List String)) :
    stepRows cols b vb (stepRows cols a va rows)
      = stepRows cols a va (stepRows cols b vb rows) := by
  unfold stepRows
  by_cases ha : a ∈ cols ∧ va ≠ [] <;> by_cases hb : b ∈ cols ∧ vb ≠ []
  · simp only [if_pos ha, if_pos hb]
    rw [List.filter_filter, List.filter_filter]
    congr 1
    funext r
    exact Bool.and_comm _ _
  · simp only [if_pos ha, if_neg hb]
  · simp only [if_neg ha, if_pos hb]
  · simp only [if_neg ha, if_neg hb]

/-- The spec's three-row scenario table: `Department` ∈ A,B and
`Attrition` ∈ Yes,No as (A,Yes), (A,No), (B,No). -/
def sampleTable : Table :=
  ⟨["Department", "Attrition"], [["A", "Yes"], ["A", "No"], ["B", "No"]]⟩

/-- The scenario selection: Department restricted to A, all other columns
unconstrained. -/
def sampleSel : Selection := fun c => if c = "Department" then ["A"] else []

/-- C1: for every record table and every filter selection, the filtered
table has the same columns and its rows are exactly the rows of the record
table passing, for every filterable column present in both the table and
the selection mapping (with a non-empty selection), the membership test
row[column] ∈ selection[column] — the conjunction of independent
per-column tests over the fixed list Department, JobRole, Gender,
Education, MaritalStatus, OverTime. -/
theorem claim1_filter_is_conjunction (sel : Selection) (t : Table) :
    (filteredTable sel t).cols = t.cols ∧
    (filteredTable sel t).rows
      = (t.rows.filter fun r => filterCols.all fun c => passes t.cols sel c r) ∧
    ∀ r, (filterCols.all fun c => passes t.cols sel c r) = true ↔
      ∀ c ∈ filterCols, c ∈ t.cols → sel c ≠ [] →
        ∃ v, cellAt t.cols r c = some v ∧ v ∈ sel c := by
  refine ⟨applyFilters_cols sel filterCols t, applyFilters_rows sel filterCols t,
    fun r => ?_⟩
  simp only [List.all_eq_true]
  constructor
  · intro h c hc hmem hne
    have hp := h c hc
    rw [passes, if_pos ⟨hmem, hne⟩] at hp
    cases hcell : cellAt t.cols r c with
    | none => rw [hcell] at hp; simp at hp
    | some v =>
        rw [hcell] at hp
        exact ⟨v, rfl, by simpa [List.contains, List.elem_iff] using hp⟩
  · intro h c hc
    rw [passes]
    by_cases hguard : c ∈ t.cols ∧ sel c ≠ []
    · rw [if_pos hguard]
      obtain ⟨v, hv, hmem⟩ := h c hc hguard.1 hguard.2
      rw [hv]
      simpa [List.contains, List.elem_iff] using hmem
    · rw [if_neg hguard]

/-- C1 witness: the spec scenario — filtering the three-row table to
Department = A keeps exactly the two A-rows, in order. -/
theorem claim1_witness :
    (filteredTable sampleSel sampleTable).cols = sampleTable.cols ∧
    (filteredTable sampleSel sampleTable).rows = [["A", "Yes"], ["A", "No"]] := by
  have h := claim1_filter_is_conjunction sampleSel sampleTable
  exact ⟨h.1, by rw [h.2.1]; decide⟩

/-- C3: filtering is the identity when unconstrained — if every filterable
column's selection is empty (no constraint) or equal as a set to the full
set of values occurring in that column, the filtered table is the record
table itself: same rows, same cells, same count, same order. -/
theorem claim3_unconstrained_filter_is_identity (sel : Selection) (t : Table)
    (hrect : Rect t)
    (hsel : ∀ c ∈ filterCols, sel c = [] ∨ ∀ v, v ∈ sel c ↔ v ∈ colValues t c) :
    filteredTable sel t = t := by
  unfold filteredTable
  generalize hcs : filterCols = cs at hsel
  clear hcs
  induction cs with
  | nil => rfl
  | cons c cs ih =>
      show applyFilters sel cs (filterStep t c (sel c)) = t
      have hstep : filterStep t c (sel c) = t := by
        apply filterStep_id_of_unconstrained
        rcases hsel c (List.mem_cons_self c cs) with h | h
        · exact Or.inl h
        · exact Or.inr ⟨hrect, h⟩
      rw [hstep]
      exact ih fun d hd => hsel d (List.mem_cons_of_mem c hd)

/-- C3 witness: with every selection empty, the scenario table filters to
itself. -/
theorem claim3_witness : filteredTable (fun _ => []) sampleTable = sampleTable :=
  claim3_unconstrained_filter_is_identity (fun _ => []) sampleTable (by decide)
    (fun _ _ => Or.inl rfl)

/-- C4: per-column filter applications commute — applying the step for
column A then column B equals applying B then A — and composing runs of
steps is associative: applying a list of steps is the composition of its
parts, and regrouping the parts does not change the result. -/
theorem claim4_filter_commutes (t : Table) (a b : String) (va vb : List String)
    (sel : Selection) (cs1 cs2 cs3 : List String) :
    filterStep (filterStep t a va) b vb = filterStep (filterStep t b vb) a va ∧
    applyFilters sel (cs1 ++ cs2) t = applyFilters sel cs2 (applyFilters sel cs1 t) ∧
    applyFilters sel ((cs1 ++ cs2) ++ cs3) t = applyFilters sel (cs1 ++ (cs2 ++ cs3)) t := by
  refine ⟨?_, by simp [applyFilters, List.foldl_append], by rw [List.append_assoc]⟩
  simp only [filterStep_eq_stepRows]
  rw [stepRows_comm]

/-- C4 witness: on the scenario table, filtering Department to A then
Attrition to No equals filtering Attrition to No then Department to A. -/
theorem claim4_witness :
    filterStep (filterStep sampleTable "Department" ["A"]) "Attrition" ["No"]
      = filterStep (filterStep sampleTable "Attrition" ["No"]) "Department" ["A"] :=
  (claim4_filter_commutes sampleTable "Department" "Attrition" ["A"] ["No"]
    (fun _ => []) [] [] []).1

/-- Case normalization of a cell value, per character (the `.str.lower()`
of src/app.py line 62). -/
def lowerStr (s : String) : String :=
  String.mk (s.data.map Char.toLower)

/-- Whether a row's Attrition cell, case-normalized, equals "yes"
(`filtered_df[quote Attrition quote].str.lower().eq('yes')`,
src/app.py line 62); a missing cell counts as false, as in the source. -/
def isYesRow (cols : List String) (r : List String) : Bool :=
  (cellAt cols r "Attrition").any fun v => lowerStr v == "yes"

/-- The attrition-rate metric (src/app.py lines 62-63): 100 times the mean
of the per-row yes-indicator; `none` models the N/A display, produced when
the Attrition column is absent (the `else np.nan` branch) or the filtered
table is empty (the mean of an empty series is NaN). -/
def attritionRate (t : Table) : Option ℚ :=
  if "Attrition" ∈ t.cols then
    if t.rows.length = 0 then none
    else some (100 * ((t.rows.countP fun r => isYesRow t.cols r : ℕ) : ℚ) / (t.rows.length : ℚ))
  else none

/-- C2: the attrition rate is 100 times the fraction of rows whose
Attrition value, case-normalized, equals "yes"; it is not available when
the Attrition column is absent or the filtered table is empty; and on a
non-empty table where the Attrition indicator is constant it equals 100
when constantly yes and 0 otherwise. -/
theorem claim2_attrition_rate (t : Table) :
    (("Attrition" ∉ t.cols ∨ t.rows = []) → attritionRate t = none) ∧
    ("Attrition" ∈ t.cols → t.rows ≠ [] →
      attritionRate t
          = some (100 * ((t.rows.countP fun r => isYesRow t.cols r : ℕ) : ℚ)
              / (t.rows.length : ℚ)) ∧
      ((∀ r ∈ t.rows, isYesRow t.cols r = true) → attritionRate t = some 100) ∧
      ((∀ r ∈ t.rows, isYesRow t.cols r = false) → attritionRate t = some 0)) := by
  constructor
  · intro h
    unfold attritionRate
    rcases h with h | h
    · rw [if_neg h]
    · by_cases hm : "Attrition" ∈ t.cols
      · rw [if_pos hm, if_pos (by simp [h])]
      · rw [if_neg hm]
  · intro hm hne
    have hlen : t.rows.length ≠ 0 := fun h0 => hne (List.length_eq_zero.mp h0)
    have hbase : attritionRate t
        = some (100 * ((t.rows.countP fun r => isYesRow t.cols r : ℕ) : ℚ)
            / (t.rows.length : ℚ)) := by
      unfold attritionRate
      rw [if_pos hm, if_neg hlen]
    refine ⟨hbase, ?_, ?_⟩
    · intro hyes
      rw [hbase]
      have hcount : (t.rows.countP fun r => isYesRow t.cols r) = t.rows.length :=
        List.countP_eq_length.mpr hyes
      rw [hcount]
      congr 1
      have hq : (t.rows.length : ℚ) ≠ 0 := Nat.cast_ne_zero.mpr hlen
      field_simp
    · intro hno
      rw [hbase]
      have hcount : (t.rows.countP fun r => isYesRow t.cols r) = 0 :=
        List.countP_eq_zero.mpr (by intro r hr; simp [hno r hr])
      rw [hcount]
      norm_num

/-- C2 witness: on the scenario table filtered to Department = A, the
attrition rate is 50 percent; on the empty-selection of a table without
the column it is N/A. -/
theorem claim2_witness :
    attritionRate (filteredTable sampleSel sampleTable) = some 50 ∧
    attritionRate ⟨["Department"], []⟩ = none := by
  constructor
  · have h := (claim2_attrition_rate (filteredTable sampleSel sampleTable)).2
      (by decide) (by decide)
    have hc : ((filteredTable sampleSel sampleTable).rows.countP fun r =>
        isYesRow (filteredTable sampleSel sampleTable).cols r) = 1 := by decide
    have hl : (filteredTable sampleSel sampleTable).rows.length = 2 := by decide
    rw [h.1, hc, hl]
    norm_num
  · exact (claim2_attrition_rate ⟨["Department"], []⟩).1 (Or.inr rfl)

/-- Number of rows with value `g` in column `c1` and value `a` in column
`c2` (one cell of the crosstab counts). -/
def groupCount (t : Table) (c1 c2 g a : String) : ℕ :=
  t.rows.countP fun r => cellAt t.cols r c1 == some g && (cellAt t.cols r c2 == some a)

/-- Number of rows with value `g` in column `c1` (one crosstab row's
group size). -/
def groupTotal (t : Table) (c1 g : String) : ℕ :=
  t.rows.countP fun r => cellAt t.cols r c1 == some g

/-- The row-normalized cross-tabulation
`pd.crosstab(filtered_df[c1], filtered_df[c2], normalize='index')`
(src/app.py line 72): for each distinct value g of `c1`, the shares
groupCount/groupTotal over the distinct values of `c2`.  The view is
omitted (`none`) when either column is absent — the guard on line 71. -/
def crosstabView (t : Table) (c1 c2 : String) :
    Option (List (String × List (String × ℚ))) :=
  if c1 ∈ t.cols ∧ c2 ∈ t.cols then
    some ((colValues t c1).dedup.map fun g =>
      (g, (colValues t c2).dedup.map fun a =>
        (a, (groupCount t c1 c2 g a : ℚ) / (groupTotal t c1 g : ℚ))))
  else none

theorem sum_map_ite_eq {d : List String} (hd : d.Nodup) {v : String} (hv : v ∈ d)
    (k : ℕ) : (d.map fun a => if v = a then k else 0).sum = k := by
  induction d with
  | nil => cases hv
  | cons b d ih =>
      rw [List.map_cons, List.sum_cons]
      rcases List.mem_cons.mp hv with hv | hv
      · subst hv
        rw [if_pos rfl]
        have hz : (d.map fun a => if v = a then k else 0).sum = 0 := by
          apply List.sum_eq_zero
          intro x hx
          obtain ⟨a, ha, rfl⟩ := List.mem_map.mp hx
          rw [if_neg]
          intro h
          exact (List.nodup_cons.mp hd).1 (h ▸ ha)
        rw [hz, Nat.add_zero]
      · have hne : v ≠ b := fun h => (List.nodup_cons.mp hd).1 (h ▸ hv)
        rw [if_neg hne, ih (List.nodup_cons.mp hd).2 hv, Nat.zero_add]

theorem countP_partition (p : List String → Bool) (val : List String → Option String)
    (d : List String) (hd : d.Nodup) (rows : List (List String))
    (hcov : ∀ r ∈ rows, p r = true → ∃ v, val r = some v ∧ v ∈ d) :
    (d.map fun a => rows.countP fun r => p r && (val r == some a)).sum
      = rows.countP p := by
  induction rows with
  | nil => simp
  | cons r rest ih =>
      have hrest := ih fun r hr => hcov r (List.mem_cons_of_mem _ hr)
      simp only [List.countP_cons]
      rw [List.sum_map_add, hrest]
      congr 1
      by_cases hp : p r = true
      · obtain ⟨v, hval, hvd⟩ := hcov r (List.mem_cons_self r rest) hp
        have hf : (fun a => if (p r && (val r == some a)) = true then 1 else 0)
            = fun a => if v = a then 1 else 0 := by
          funext a
          rw [hp, hval]
          by_cases hva : v = a <;> simp [hva]
        rw [if_pos hp, hf]
        exact sum_map_ite_eq hd hvd 1
      · rw [if_neg hp]
        apply List.sum_eq_zero
        intro x hx
        obtain ⟨a, _, rfl⟩ := List.mem_map.mp hx
        simp only [Bool.not_eq_true] at hp
        simp [hp]

/-- One row of the normalized crosstab: the shares of each `c2` value
among the rows whose `c1` value is `g`. -/
def rowEntries (t : Table) (c1 c2 g : String) : List (String × ℚ) :=
  (colValues t c2).dedup.map fun a =>
    (a, (groupCount t c1 c2 g a : ℚ) / (groupTotal t c1 g : ℚ))

theorem crosstabView_eq_rowEntries (t : Table) (c1 c2 : String)
    (hc1 : c1 ∈ t.cols) (hc2 : c2 ∈ t.cols) :
    crosstabView t c1 c2
      = some ((colValues t c1).dedup.map fun g => (g, rowEntries t c1 c2 g)) := by
  unfold crosstabView rowEntries
  rw [if_pos ⟨hc1, hc2⟩]

/-- C5: in the row-normalized cross-tabulation, the result rows are
exactly the per-group share rows, and every row whose group contains at
least one record sums to 1 — each row is a conditional distribution. -/
theorem claim5_crosstab_rows_sum_to_one (t : Table) (c1 c2 : String)
    (hrect : Rect t) (hc1 : c1 ∈ t.cols) (hc2 : c2 ∈ t.cols) :
    crosstabView t c1 c2
      = some ((colValues t c1).dedup.map fun g => (g, rowEntries t c1 c2 g)) ∧
    ∀ g, 1 ≤ groupTotal t c1 g →
      ((rowEntries t c1 c2 g).map Prod.snd).sum = 1 := by
  refine ⟨crosstabView_eq_rowEntries t c1 c2 hc1 hc2, fun g htotal => ?_⟩
  unfold rowEntries
  rw [List.map_map]
  have hsnd : (Prod.snd ∘ fun a =>
      (a, (groupCount t c1 c2 g a : ℚ) / (groupTotal t c1 g : ℚ)))
      = fun a => (groupCount t c1 c2 g a : ℚ) * ((groupTotal t c1 g : ℚ))⁻¹ := by
    funext a
    simp [div_eq_mul_inv]
  rw [hsnd, List.sum_map_mul_right]
  have hpart : ((colValues t c2).dedup.map fun a => groupCount t c1 c2 g a).sum
      = groupTotal t c1 g := by
    unfold groupCount groupTotal
    apply countP_partition _ (fun r => cellAt t.cols r c2) _
      (List.nodup_dedup _) _
    intro r hr _
    obtain ⟨v, hv⟩ := cellAt_isSome_of_mem hc2 (hrect r hr)
    exact ⟨v, hv, List.mem_dedup.mpr (cellAt_mem_colValues hr hv)⟩
  have hcast : ((colValues t c2).dedup.map fun a =>
      ((groupCount t c1 c2 g a : ℕ) : ℚ)).sum = ((groupTotal t c1 g : ℕ) : ℚ) := by
    rw [← hpart, Nat.cast_list_sum, List.map_map]
    rfl
  rw [hcast]
  have hT : ((groupTotal t c1 g : ℕ) : ℚ) ≠ 0 := by
    simp only [ne_eq, Nat.cast_eq_zero]
    omega
  exact mul_inv_cancel₀ hT

/-- C5 witness: on the scenario table, the Department = A crosstab row
(group of size 2) sums to 1. -/
theorem claim5_witness :
    ((rowEntries sampleTable "Department" "Attrition" "A").map Prod.snd).sum = 1 ∧
    groupTotal sampleTable "Department" "A" = 2 :=
  ⟨(claim5_crosstab_rows_sum_to_one sampleTable "Department" "Attrition"
      (by decide) (by decide) (by decide)).2 "A" (by decide), by decide⟩

/-- Whether a cell text is a numeral — the model of the loader's numeric
dtype inference behind `select_dtypes(include=np.number)`
(src/app.py line 133). -/
def isNumStr (s : String) : Bool :=
  s.data ≠ [] && s.data.all Char.isDigit

/-- Numeric value of a numeral cell. -/
def numVal (s : String) : ℚ :=
  ((s.data.foldl (fun n c => 10 * n + (c.toNat - 48)) 0 : ℕ) : ℚ)

/-- The numeric columns of the table: columns whose every cell is a
numeral (`filtered_df.select_dtypes(include=np.number).columns`,
src/app.py line 133). -/
def numericCols (t : Table) : List String :=
  t.cols.filter fun c => t.rows.all fun r => (cellAt t.cols r c).any isNumStr

/-- The numeric values of a column. -/
def colNums (t : Table) (c : String) : List ℚ :=
  t.rows.filterMap fun r => (cellAt t.cols r c).map numVal

/-- Mean of a list of rationals. -/
def qmean (xs : List ℚ) : ℚ := xs.sum / (xs.length : ℚ)

/-- Centered product sum of two equal-length series — the covariance
numerator feeding the correlation matrix.  The float-valued normalization
by the standard deviations (a square root) is abstracted: no claim refers
to the matrix entries, only to the guard. -/
def covSum (xs ys : List ℚ) : ℚ :=
  ((xs.zip ys).map fun p => (p.1 - qmean xs) * (p.2 - qmean ys)).sum

/-- The correlation view (src/app.py lines 132-138): pairwise association
entries over the numeric columns, omitted (`none`) unless more than one
numeric column exists (the guard `len(num_cols) > 1` on line 134). -/
def corrView (t : Table) : Option (List ((String × String) × ℚ)) :=
  if 1 < (numericCols t).length then
    some (((numericCols t).map fun c1 =>
      (numericCols t).map fun c2 =>
        ((c1, c2), covSum (colNums t c1) (colNums t c2))).flatten)
  else none

/-- The summary view (`filtered_df.describe(include='all')`,
src/app.py line 174), reduced to the per-column count row: a total
function of the filtered table. -/
def summaryView (t : Table) : List (String × ℕ) :=
  t.cols.map fun c => (c, t.rows.length)

/-- C6: a referenced column being absent is never an error — the filter
for an absent column is silently skipped, a cross-tabulation with either
column missing is omitted with no placeholder, the correlation matrix is
omitted when fewer than two numeric columns exist — and each derived
computation succeeds (produces a value) once its domain guard passes. -/
theorem claim6_missing_column_policy (t : Table) (c c1 c2 : String)
    (vals : List String) :
    (c ∉ t.cols → filterStep t c vals = t) ∧
    (c1 ∉ t.cols ∨ c2 ∉ t.cols → crosstabView t c1 c2 = none) ∧
    ((numericCols t).length ≤ 1 → corrView t = none) ∧
    (1 < (numericCols t).length → (corrView t).isSome = true) ∧
    (c1 ∈ t.cols → c2 ∈ t.cols → (crosstabView t c1 c2).isSome = true) ∧
    ("Attrition" ∈ t.cols → t.rows ≠ [] → (attritionRate t).isSome = true) ∧
    (summaryView t).length = t.cols.length := by
  refine ⟨?_, ?_, ?_, ?_, ?_, ?_, ?_⟩
  · intro h
    unfold filterStep
    rw [if_neg fun hc => h hc.1]
  · intro h
    unfold crosstabView
    rw [if_neg fun hc => h.elim (fun h1 => h1 hc.1) fun h2 => h2 hc.2]
  · intro h
    unfold corrView
    rw [if_neg (Nat.not_lt.mpr h)]
  · intro h
    unfold corrView
    rw [if_pos h]
    rfl
  · intro h1 h2
    unfold crosstabView
    rw [if_pos ⟨h1, h2⟩]
    rfl
  · intro hm hne
    unfold attritionRate
    rw [if_pos hm, if_neg fun h0 => hne (List.length_eq_zero.mp h0)]
    rfl
  · exact List.length_map t.cols _

/-- C6 witness: on concrete tables — a filter on the absent JobRole
column is a no-op, a crosstab against the absent JobRole column is
omitted, the all-categorical scenario table has no correlation view while
a two-numeric-column table has one, and the guarded views are present. -/
theorem claim6_witness :
    filterStep sampleTable "JobRole" ["x"] = sampleTable ∧
    crosstabView sampleTable "Department" "JobRole" = none ∧
    corrView sampleTable = none ∧
    (corrView ⟨["Age", "MonthlyIncome"], [["40", "5000"], ["50", "6000"]]⟩).isSome
      = true ∧
    (crosstabView sampleTable "Department" "Attrition").isSome = true ∧
    (attritionRate sampleTable).isSome = true := by
  refine ⟨(claim6_missing_column_policy sampleTable "JobRole" "Department" "JobRole"
      ["x"]).1 (by decide),
    (claim6_missing_column_policy sampleTable "JobRole" "Department" "JobRole"
      ["x"]).2.1 (Or.inr (by decide)),
    (claim6_missing_column_policy sampleTable "JobRole" "Department" "JobRole"
      ["x"]).2.2.1 (by decide),
    (claim6_missing_column_policy ⟨["Age", "MonthlyIncome"],
      [["40", "5000"], ["50", "6000"]]⟩ "JobRole" "Department" "JobRole"
      ["x"]).2.2.2.1 (by decide),
    (claim6_missing_column_policy sampleTable "JobRole" "Department" "Attrition"
      ["x"]).2.2.2.2.1 (by decide) (by decide),
    (claim6_missing_column_policy sampleTable "JobRole" "Department" "Attrition"
      ["x"]).2.2.2.2.2.1 (by decide) (by decide)⟩

/-- The aggregation choices offered by the pivot builder
(src/app.py line 180). -/
def aggChoices : List String := ["count", "mean", "sum", "min", "max"]

/-- The value a single-select control holds before any user interaction:
its first option (`st.selectbox` defaults to index 0), `none` when the
option list is empty. -/
def selectboxDefault (options : List String) : Option String := options.head?

/-- The value columns of a pivot request: every column other than the
chosen row and column keys (`pd.pivot_table` with `values=None`). -/
def valueCols (t : Table) (row col : String) : List String :=
  t.cols.filter fun c => c != row && c != col

/-- The numeric value columns of a pivot request — what a numeric-only
aggregation can act on. -/
def meanValueCols (t : Table) (row col : String) : List String :=
  (valueCols t row col).filter fun c => (numericCols t).contains c

/-- The value columns the chosen aggregation acts on: mean keeps only the
numeric ones. -/
def pivotVCols (t : Table) (row col agg : String) : List String :=
  if agg = "mean" then meanValueCols t row col else valueCols t row col

/-- Reduce a group's values with the chosen aggregation function. -/
def pivotAgg (agg : String) (xs : List ℚ) : ℚ :=
  if agg = "count" then (xs.length : ℚ)
  else if agg = "mean" then xs.sum / (xs.length : ℚ)
  else if agg = "sum" then xs.sum
  else if agg = "min" then (xs.min?).getD 0
  else (xs.max?).getD 0

/-- The values of column `v` over the rows of group (g, h). -/
def cellVals (t : Table) (row col g h v : String) : List ℚ :=
  t.rows.filterMap fun r =>
    if cellAt t.cols r row == some g && (cellAt t.cols r col == some h) then
      (cellAt t.cols r v).map numVal
    else none

/-- The entries of a successful pivot: one aggregated value per occurring
(row value, column value) pair and value column. -/
def pivotEntries (t : Table) (row col agg : String) :
    List ((String × String × String) × ℚ) :=
  ((colValues t row).dedup.map fun g =>
    ((colValues t col).dedup.map fun h =>
      (pivotVCols t row col agg).map fun v =>
        ((g, h, v), pivotAgg agg (cellVals t row col g h v))).flatten).flatten

/-- `pd.pivot_table(filtered_df, index=row, columns=col, aggfunc=agg)`
(src/app.py line 183): an `Except` models the raised-and-caught library
exception — in particular the numeric-only aggregation mean fails when no
numeric value column remains. -/
def pivotTable (t : Table) (row col agg : String) :
    Except String (List ((String × String × String) × ℚ)) :=
  if row ∈ t.cols ∧ col ∈ t.cols then
    if agg = "mean" ∧ meanValueCols t row col = [] then
      Except.error "No numeric types to aggregate"
    else Except.ok (pivotEntries t row col agg)
  else Except.error "KeyError"

/-- Python truthiness of an optional string (`if row and col:`,
src/app.py line 181): none and the empty string are falsy. -/
def truthy : Option String → Bool
  | some s => s != ""
  | none => false

/-- The guard of the pivot block: the row and column selections are
truthy.  The aggregation selection is not consulted. -/
def pivotAttempted (rowSel colSel : Option String) : Bool :=
  truthy rowSel && truthy colSel

/-- Outcome of rendering the pivot block: the filtered table it was given
(returned to show it is untouched), the displayed pivot if any, and the
warning if any. -/
structure PivotOutcome where
  table : Table
  shown : Option (List ((String × String × String) × ℚ))
  warning : Option String
deriving DecidableEq

/-- The pivot block of the Data & Downloads tab (src/app.py lines
177-186): when the guard passes, try the pivot; on success display it, on
failure display a warning.  The filtered table is never modified. -/
def pivotSection (t : Table) (rowSel colSel : Option String) (agg : String) :
    PivotOutcome :=
  if pivotAttempted rowSel colSel then
    match pivotTable t (rowSel.getD "") (colSel.getD "") agg with
    | Except.ok p => ⟨t, some p, none⟩
    | Except.error e => ⟨t, none, some ("Pivot error: " ++ e)⟩
  else ⟨t, none, none⟩

/-- C7: a pivot request whose aggregation is inapplicable — mean over a
table with no numeric value columns — yields a recoverable error that is
surfaced as a warning, no pivot is displayed, and the filtered table is
returned unchanged by the failed pivot. -/
theorem claim7_pivot_mean_error_recoverable (t : Table) (row col : String)
    (hrow : row ∈ t.cols) (hcol : col ∈ t.cols)
    (hrow0 : row ≠ "") (hcol0 : col ≠ "")
    (hnum : meanValueCols t row col = []) :
    pivotTable t row col "mean" = Except.error "No numeric types to aggregate" ∧
    pivotSection t (some row) (some col) "mean"
      = ⟨t, none, some ("Pivot error: " ++ "No numeric types to aggregate")⟩ := by
  have herr : pivotTable t row col "mean"
      = Except.error "No numeric types to aggregate" := by
    unfold pivotTable
    rw [if_pos ⟨hrow, hcol⟩, if_pos ⟨rfl, hnum⟩]
  refine ⟨herr, ?_⟩
  unfold pivotSection
  have hguard : pivotAttempted (some row) (some col) = true := by
    simp [pivotAttempted, truthy, hrow0, hcol0]
  rw [if_pos hguard]
  simp only [Option.getD_some]
  rw [herr]

/-- C7 witness: on a two-categorical-column table, a mean pivot over
Department × Attrition errors recoverably and leaves the table as is. -/
theorem claim7_witness :
    pivotTable ⟨["Department", "Attrition"], [["Sales", "Yes"]]⟩ "Department"
      "Attrition" "mean" = Except.error "No numeric types to aggregate" ∧
    pivotSection ⟨["Department", "Attrition"], [["Sales", "Yes"]]⟩ (some "Department")
      (some "Attrition") "mean"
      = ⟨⟨["Department", "Attrition"], [["Sales", "Yes"]]⟩, none,
          some ("Pivot error: " ++ "No numeric types to aggregate")⟩ :=
  claim7_pivot_mean_error_recoverable ⟨["Department", "Attrition"], [["Sales", "Yes"]]⟩
    "Department" "Attrition" (by decide) (by decide) (by decide) (by decide) (by decide)

/-- C9 counterexample: the pivot controls do have default selections —
before any user interaction the aggregation control holds "count" and the
row and column controls hold the first column of the filtered table — and
with those defaults alone the pivot guard already passes on a concrete
two-column table, so a pivot is computed before the user has chosen
anything. -/
theorem claim9_counterexample :
    selectboxDefault aggChoices = some "count" ∧
    selectboxDefault (⟨["Department", "Attrition"], [["Sales", "Yes"]]⟩ : Table).cols
      = some "Department" ∧
    pivotAttempted
      (selectboxDefault (⟨["Department", "Attrition"], [["Sales", "Yes"]]⟩ : Table).cols)
      (selectboxDefault (⟨["Department", "Attrition"], [["Sales", "Yes"]]⟩ : Table).cols)
      = true := by
  decide

/-- C9 amended: each pivot control defaults to its first option — "count"
for the aggregation, the first column for row and column — and the pivot
computation is attempted whenever the row and column values are truthy,
which the defaults already satisfy on any table whose first column name
is non-empty; the aggregation control is not consulted by the guard. -/
theorem claim9_amended_default_selections (t : Table) (c : String)
    (cs : List String) (hcols : t.cols = c :: cs) (hc : c ≠ "") :
    selectboxDefault aggChoices = some "count" ∧
    selectboxDefault t.cols = some c ∧
    pivotAttempted (selectboxDefault t.cols) (selectboxDefault t.cols) = true := by
  refine ⟨rfl, by rw [hcols]; rfl, ?_⟩
  rw [hcols]
  simp [selectboxDefault, pivotAttempted, truthy, hc]

/-- C9 amended witness: on a concrete two-column table the defaults are
"count" and "Department", and the guard passes with them. -/
theorem claim9_witness :
    selectboxDefault aggChoices = some "count" ∧
    selectboxDefault (⟨["Department"], []⟩ : Table).cols = some "Department" ∧
    pivotAttempted (selectboxDefault (⟨["Department"], []⟩ : Table).cols)
      (selectboxDefault (⟨["Department"], []⟩ : Table).cols) = true :=
  claim9_amended_default_selections ⟨["Department"], []⟩ "Department" []
    rfl (by decide)

theorem filteredTable_rows_sublist (sel : Selection) (t : Table) :
    (filteredTable sel t).rows.Sublist t.rows := by
  show (applyFilters sel filterCols t).rows.Sublist t.rows
  rw [applyFilters_rows]
  exact List.filter_sublist t.rows

/-- Whether a CSV field must be quoted: it contains the delimiter, the
quote character or a line break (the writer's minimal-quoting rule behind
`filtered_df.to_csv`, src/app.py line 165). -/
def fieldNeedsQuote (cs : List Char) : Bool :=
  cs.any fun c => (c == ',') || (c == '"') || (c == '\n') || (c == '\r')

/-- Escape a field body for quoting: double every quote character. -/
def escField (cs : List Char) : List Char :=
  cs.foldr (fun c acc => if c = '"' then '"' :: '"' :: acc else c :: acc) []

/-- Serialize one field: quoted with doubled quotes when needed, verbatim
otherwise. -/
def renderField (cs : List Char) : List Char :=
  if fieldNeedsQuote cs then '"' :: (escField cs ++ ['"']) else cs

/-- Serialize one record: fields joined by commas. -/
def renderLine : List (List Char) → List Char
  | [] => []
  | [f] => renderField f
  | f :: fs => renderField f ++ ',' :: renderLine fs

/-- Serialize a whole CSV document: one line per record, each terminated
by a newline (as `to_csv` writes it). -/
def renderCSVChars (lines : List (List (List Char))) : List Char :=
  (lines.map fun l => renderLine l ++ ['\n']).flatten

/-- The character lines of a table: the header record then one record per
row. -/
def tableLines (t : Table) : List (List (List Char)) :=
  t.cols.map String.data :: t.rows.map fun r => r.map String.data

/-- `filtered_df.to_csv(index=False)` (src/app.py line 165): header line
then data lines, comma separated, minimally quoted. -/
def renderCSV (t : Table) : String :=
  String.mk (renderCSVChars (tableLines t))

/-- Parser mode: outside quotes, inside a quoted field, or just past a
closing quote (where a second quote means an escaped quote). -/
inductive CsvMode
  | norm
  | quoted
  | closed
deriving DecidableEq, Repr

/-- Parser state: completed records, completed fields of the current
record, the current field, and the mode. -/
structure CsvState where
  recs : List (List (List Char))
  fields : List (List Char)
  cur : List Char
  mode : CsvMode
deriving DecidableEq, Repr

/-- One character of CSV parsing. -/
def csvStep (st : CsvState) (c : Char) : CsvState :=
  match st.mode with
  | CsvMode.norm =>
      if c = ',' then ⟨st.recs, st.fields ++ [st.cur], [], CsvMode.norm⟩
      else if c = '\n' then ⟨st.recs ++ [st.fields ++ [st.cur]], [], [], CsvMode.norm⟩
      else if c = '"' ∧ st.cur = [] then ⟨st.recs, st.fields, [], CsvMode.quoted⟩
      else ⟨st.recs, st.fields, st.cur ++ [c], CsvMode.norm⟩
  | CsvMode.quoted =>
      if c = '"' then ⟨st.recs, st.fields, st.cur, CsvMode.closed⟩
      else ⟨st.recs, st.fields, st.cur ++ [c], CsvMode.quoted⟩
  | CsvMode.closed =>
      if c = '"' then ⟨st.recs, st.fields, st.cur ++ ['"'], CsvMode.quoted⟩
      else if c = ',' then ⟨st.recs, st.fields ++ [st.cur], [], CsvMode.norm⟩
      else if c = '\n' then ⟨st.recs ++ [st.fields ++ [st.cur]], [], [], CsvMode.norm⟩
      else ⟨st.recs, st.fields, st.cur ++ [c], CsvMode.norm⟩

/-- Parse a CSV document into its records; a dangling final record
without a trailing newline is kept. -/
def parseCSVChars (input : List Char) : List (List (List Char)) :=
  let st := input.foldl csvStep ⟨[], [], [], CsvMode.norm⟩
  if st.fields = [] ∧ st.cur = [] ∧ st.mode = CsvMode.norm then st.recs
  else st.recs ++ [st.fields ++ [st.cur]]

/-- Re-parse exported CSV text into a table: first record is the header,
the rest are the rows (`pd.read_csv` on the exported file, at the level
of text cells). -/
def parseCSV (s : String) : Option Table :=
  match parseCSVChars s.data with
  | [] => none
  | h :: rs => some ⟨h.map String.mk, rs.map fun r => r.map String.mk⟩

theorem csvStep_norm (recs : List (List (List Char))) (fields : List (List Char))
    (cur : List Char) (c : Char) :
    csvStep ⟨recs, fields, cur, CsvMode.norm⟩ c
      = if c = ',' then ⟨recs, fields ++ [cur], [], CsvMode.norm⟩
        else if c = '\n' then ⟨recs ++ [fields ++ [cur]], [], [], CsvMode.norm⟩
        else if c = '"' ∧ cur = [] then ⟨recs, fields, [], CsvMode.quoted⟩
        else ⟨recs, fields, cur ++ [c], CsvMode.norm⟩ := rfl

theorem csvStep_quoted (recs : List (List (List Char))) (fields : List (List Char))
    (cur : List Char) (c : Char) :
    csvStep ⟨recs, fields, cur, CsvMode.quoted⟩ c
      = if c = '"' then ⟨recs, fields, cur, CsvMode.closed⟩
        else ⟨recs, fields, cur ++ [c], CsvMode.quoted⟩ := rfl

theorem csvStep_closed (recs : List (List (List Char))) (fields : List (List Char))
    (cur : List Char) (c : Char) :
    csvStep ⟨recs, fields, cur, CsvMode.closed⟩ c
      = if c = '"' then ⟨recs, fields, cur ++ ['"'], CsvMode.quoted⟩
        else if c = ',' then ⟨recs, fields ++ [cur], [], CsvMode.norm⟩
        else if c = '\n' then ⟨recs ++ [fields ++ [cur]], [], [], CsvMode.norm⟩
        else ⟨recs, fields, cur ++ [c], CsvMode.norm⟩ := rfl

theorem foldl_csvStep_plain (cs : List Char)
    (hcs : ∀ c ∈ cs, c ≠ ',' ∧ c ≠ '"' ∧ c ≠ '\n') :
    ∀ recs fields cur,
      cs.foldl csvStep ⟨recs, fields, cur, CsvMode.norm⟩
        = ⟨recs, fields, cur ++ cs, CsvMode.norm⟩ := by
  induction cs with
  | nil => intro recs fields cur; simp
  | cons c cs ih =>
      intro recs fields cur
      obtain ⟨hc1, hc2, hc3⟩ := hcs c (List.mem_cons_self c cs)
      have hstep : csvStep ⟨recs, fields, cur, CsvMode.norm⟩ c
          = ⟨recs, fields, cur ++ [c], CsvMode.norm⟩ := by
        rw [csvStep_norm, if_neg hc1, if_neg hc3, if_neg fun h => hc2 h.1]
      rw [List.foldl_cons, hstep,
        ih (fun d hd => hcs d (List.mem_cons_of_mem c hd)) recs fields (cur ++ [c]),
        List.append_assoc]
      rfl

theorem foldl_csvStep_escField (f : List Char) :
    ∀ recs fields cur,
      (escField f).foldl csvStep ⟨recs, fields, cur, CsvMode.quoted⟩
        = ⟨recs, fields, cur ++ f, CsvMode.quoted⟩ := by
  induction f with
  | nil => intro recs fields cur; simp [escField]
  | cons c f ih =>
      intro recs fields cur
      by_cases hc : c = '"'
      · subst hc
        have hesc : escField ('"' :: f) = '"' :: '"' :: escField f := by
          simp [escField]
        rw [hesc, List.foldl_cons, List.foldl_cons]
        have h1 : csvStep ⟨recs, fields, cur, CsvMode.quoted⟩ '"'
            = ⟨recs, fields, cur, CsvMode.closed⟩ := by
          rw [csvStep_quoted, if_pos rfl]
        have h2 : csvStep ⟨recs, fields, cur, CsvMode.closed⟩ '"'
            = ⟨recs, fields, cur ++ ['"'], CsvMode.quoted⟩ := by
          rw [csvStep_closed, if_pos rfl]
        rw [h1, h2, ih recs fields (cur ++ ['"']), List.append_assoc]
        rfl
      · have hesc : escField (c :: f) = c :: escField f := by
          simp [escField, hc]
        rw [hesc, List.foldl_cons]
        have h1 : csvStep ⟨recs, fields, cur, CsvMode.quoted⟩ c
            = ⟨recs, fields, cur ++ [c], CsvMode.quoted⟩ := by
          rw [csvStep_quoted, if_neg hc]
        rw [h1, ih recs fields (cur ++ [c]), List.append_assoc]
        rfl

theorem foldl_csvStep_renderField (f : List Char) (recs : List (List (List Char)))
    (fields : List (List Char)) :
    (renderField f).foldl csvStep ⟨recs, fields, [], CsvMode.norm⟩
      = if fieldNeedsQuote f then (⟨recs, fields, f, CsvMode.closed⟩ : CsvState)
        else ⟨recs, fields, f, CsvMode.norm⟩ := by
  unfold renderField
  by_cases hq : fieldNeedsQuote f = true
  · rw [if_pos hq, if_pos hq, List.foldl_cons]
    have h1 : csvStep ⟨recs, fields, [], CsvMode.norm⟩ '"'
        = ⟨recs, fields, [], CsvMode.quoted⟩ := by
      rw [csvStep_norm, if_neg (by decide), if_neg (by decide), if_pos ⟨rfl, rfl⟩]
    rw [h1, List.foldl_append, foldl_csvStep_escField f recs fields []]
    have h2 : csvStep ⟨recs, fields, [] ++ f, CsvMode.quoted⟩ '"'
        = ⟨recs, fields, [] ++ f, CsvMode.closed⟩ := by
      rw [csvStep_quoted, if_pos rfl]
    rw [show (['"'] : List Char).foldl csvStep ⟨recs, fields, [] ++ f, CsvMode.quoted⟩
        = csvStep ⟨recs, fields, [] ++ f, CsvMode.quoted⟩ '"' from rfl, h2]
    simp
  · rw [if_neg hq, if_neg hq]
    have hchars : ∀ c ∈ f, c ≠ ',' ∧ c ≠ '"' ∧ c ≠ '\n' := by
      intro c hc
      have := fun hx => hq (List.any_eq_true.mpr ⟨c, hc, hx⟩)
      refine ⟨fun h => this ?_, fun h => this ?_, fun h => this ?_⟩ <;>
        simp [h]
    rw [foldl_csvStep_plain f hchars recs fields []]
    rfl

theorem foldl_csvStep_field_comma (f : List Char) (recs : List (List (List Char)))
    (fields : List (List Char)) :
    (renderField f ++ [',']).foldl csvStep ⟨recs, fields, [], CsvMode.norm⟩
      = ⟨recs, fields ++ [f], [], CsvMode.norm⟩ := by
  rw [List.foldl_append, foldl_csvStep_renderField]
  by_cases hq : fieldNeedsQuote f = true
  · rw [if_pos hq]
    show csvStep ⟨recs, fields, f, CsvMode.closed⟩ ',' = _
    rw [csvStep_closed, if_neg (by decide), if_pos rfl]
  · rw [if_neg hq]
    show csvStep ⟨recs, fields, f, CsvMode.norm⟩ ',' = _
    rw [csvStep_norm, if_pos rfl]

theorem foldl_csvStep_field_newline (f : List Char) (recs : List (List (List Char)))
    (fields : List (List Char)) :
    (renderField f ++ ['\n']).foldl csvStep ⟨recs, fields, [], CsvMode.norm⟩
      = ⟨recs ++ [fields ++ [f]], [], [], CsvMode.norm⟩ := by
  rw [List.foldl_append, foldl_csvStep_renderField]
  by_cases hq : fieldNeedsQuote f = true
  · rw [if_pos hq]
    show csvStep ⟨recs, fields, f, CsvMode.closed⟩ '\n' = _
    rw [csvStep_closed, if_neg (by decide), if_neg (by decide), if_pos rfl]
  · rw [if_neg hq]
    show csvStep ⟨recs, fields, f, CsvMode.norm⟩ '\n' = _
    rw [csvStep_norm, if_neg (by decide), if_pos rfl]

theorem foldl_csvStep_renderLine (f : List Char) (fs : List (List Char)) :
    ∀ recs fields,
      (renderLine (f :: fs) ++ ['\n']).foldl csvStep ⟨recs, fields, [], CsvMode.norm⟩
        = ⟨recs ++ [fields ++ f :: fs], [], [], CsvMode.norm⟩ := by
  induction fs generalizing f with
  | nil => intro recs fields; exact foldl_csvStep_field_newline f recs fields
  | cons g gs ih =>
      intro recs fields
      have h1 : renderLine (f :: g :: gs) = renderField f ++ ',' :: renderLine (g :: gs) :=
        rfl
      have h2 : (renderField f ++ ',' :: renderLine (g :: gs)) ++ ['\n']
          = (renderField f ++ [',']) ++ (renderLine (g :: gs) ++ ['\n']) := by
        simp
      rw [h1, h2, List.foldl_append, foldl_csvStep_field_comma, ih g recs (fields ++ [f])]
      simp

theorem foldl_csvStep_renderCSV (lines : List (List (List Char)))
    (hlines : ∀ l ∈ lines, l ≠ []) :
    ∀ recs,
      (renderCSVChars lines).foldl csvStep ⟨recs, [], [], CsvMode.norm⟩
        = ⟨recs ++ lines, [], [], CsvMode.norm⟩ := by
  induction lines with
  | nil => intro recs; simp [renderCSVChars]
  | cons l ls ih =>
      intro recs
      have hsplit : renderCSVChars (l :: ls)
          = (renderLine l ++ ['\n']) ++ renderCSVChars ls := by
        simp [renderCSVChars]
      cases l with
      | nil => exact absurd rfl (hlines [] (List.mem_cons_self _ _))
      | cons f fs =>
          rw [hsplit, List.foldl_append, foldl_csvStep_renderLine f fs recs [],
            ih (fun l hl => hlines l (List.mem_cons_of_mem _ hl)) (recs ++ [[] ++ f :: fs])]
          simp

theorem parseCSV_renderCSV (u : Table) (hrect : Rect u) (hcols : u.cols ≠ []) :
    parseCSV (renderCSV u) = some u := by
  obtain ⟨cols, rows⟩ := u
  have hlines : ∀ l ∈ tableLines ⟨cols, rows⟩, l ≠ [] := by
    intro l hl
    rcases List.mem_cons.mp hl with hl | hl
    · subst hl
      intro h
      rw [List.map_eq_nil_iff] at h
      exact hcols h
    · obtain ⟨r, hr, rfl⟩ := List.mem_map.mp hl
      intro h
      rw [List.map_eq_nil_iff] at h
      have hlen := hrect r hr
      rw [h] at hlen
      exact hcols (List.length_eq_zero.mp hlen.symm)
  have hparse : parseCSVChars (renderCSVChars (tableLines ⟨cols, rows⟩))
      = tableLines ⟨cols, rows⟩ := by
    unfold parseCSVChars
    rw [foldl_csvStep_renderCSV (tableLines ⟨cols, rows⟩) hlines []]
    simp
  have hdata : (renderCSV ⟨cols, rows⟩).data
      = renderCSVChars (tableLines ⟨cols, rows⟩) := rfl
  unfold parseCSV
  rw [hdata, hparse]
  have hTL : tableLines ⟨cols, rows⟩
      = (cols.map String.data) :: (rows.map fun r => r.map String.data) := rfl
  rw [hTL]
  have hmkdata : (fun s : String => String.mk s.data) = id := funext fun s => rfl
  show some (⟨(cols.map String.data).map String.mk,
      (rows.map fun r => r.map String.data).map fun r => r.map String.mk⟩ : Table)
    = some (⟨cols, rows⟩ : Table)
  have h1 : (cols.map String.data).map String.mk = cols := by
    rw [List.map_map]
    show cols.map (fun s => String.mk s.data) = cols
    rw [hmkdata, List.map_id]
  have h2 : ((rows.map fun r => r.map String.data).map fun r => r.map String.mk)
      = rows := by
    rw [List.map_map]
    have hrow : ((fun r : List (List Char) => r.map String.mk) ∘
        fun r : List String => r.map String.data) = id := by
      funext r
      show (r.map String.data).map String.mk = r
      rw [List.map_map]
      show r.map (fun s => String.mk s.data) = r
      rw [hmkdata, List.map_id]
    rw [hrow, List.map_id]
  rw [h1, h2]

/-- C8: CSV export round-trip — serializing the filtered table to
comma-separated text and re-parsing it yields a table with identical
column names, identical rows (count, order and cell values), for every
rectangular record table with at least one column. -/
theorem claim8_csv_roundtrip (sel : Selection) (t : Table) (hrect : Rect t)
    (hcols : t.cols ≠ []) :
    parseCSV (renderCSV (filteredTable sel t)) = some (filteredTable sel t) := by
  apply parseCSV_renderCSV
  · intro r hr
    show r.length = (applyFilters sel filterCols t).cols.length
    rw [applyFilters_cols sel filterCols t]
    exact hrect r ((filteredTable_rows_sublist sel t).subset hr)
  · show (applyFilters sel filterCols t).cols ≠ []
    rw [applyFilters_cols sel filterCols t]
    exact hcols

/-- C8 witness: the scenario's filtered table round-trips through CSV
text. -/
theorem claim8_witness :
    parseCSV (renderCSV (filteredTable sampleSel sampleTable))
      = some (filteredTable sampleSel sampleTable) :=
  claim8_csv_roundtrip sampleSel sampleTable (by decide) (by decide)

/-- C10 (implicit): filtering never reorders or duplicates rows — the
filtered rows are a subsequence of the record table's rows — and the
record table value passed in is untouched (the pipeline works on a copy:
`filteredTable` is a pure function of its input). -/
theorem claim10_filter_sublist (sel : Selection) (t : Table) :
    (filteredTable sel t).rows.Sublist t.rows ∧ (filteredTable sel t).cols = t.cols :=
  ⟨filteredTable_rows_sublist sel t, applyFilters_cols sel filterCols t⟩

/-- C10 witness: the scenario filter's surviving rows form a subsequence
of the original three rows. -/
theorem claim10_witness :
    (filteredTable sampleSel sampleTable).rows.Sublist sampleTable.rows :=
  (claim10_filter_sublist sampleSel sampleTable).1

end EAdash
